import Mathlib

set_option linter.unusedVariables false

/-!
Shallow embedding of the `3darr` program (source: `src/3darr.c`).

The program parses three extents `x y z` from the command line, allocates a
three-level jagged array (`elem ***`), fills element `(i, j, k)` with
`elem_pow(2,i) * elem_pow(3,j) * elem_pow(5,k)` in `unsigned long` arithmetic,
prints an allocation count and then every element, and frees everything.

The embedding models the run of the program as a list of events: allocations
and frees of the individual `malloc` blocks, lines written to stdout and
stderr, and the final exit.  Allocation failure is injected through an
`Option Ptr` parameter naming the one `malloc` call that returns `NULL`
(each block is allocated at most once, so a single failure point suffices).
`elem` is `unsigned long`, modelled as `Nat` with arithmetic reduced modulo
`2 ^ 64` (LP64 platforms, as targeted by the repository's build files).
-/

/-- Identity of one `malloc` block of the nested structure:
the root `elem ***` block, the middle `elem **` block of outer index `i`,
or the inner `elem *` block at indices `(i, j)`. -/
inductive Ptr where
  | root : Ptr
  | mid : Nat → Ptr
  | inner : Nat → Nat → Ptr
deriving DecidableEq, Repr

/-- Observable events of a program run: a successful allocation of a block, a
`free` of a (non-`NULL`) block, a line written to stdout, a line written to
stderr (`perror` / `fprintf(stderr, ...)`), and process exit
(`exited true` = `EXIT_SUCCESS`, `exited false` = `EXIT_FAILURE`). -/
inductive Event where
  | alloc : Ptr → Event
  | free : Ptr → Event
  | out : String → Event
  | err : String → Event
  | exited : Bool → Event
deriving DecidableEq, Repr

/-- Width of `elem` (`unsigned long`) in bits: 64 on the LP64 targets built by
the repository. -/
def elemBits : Nat := 64

/-- `2 ^ 64`; `elem` arithmetic is arithmetic modulo this value. -/
def elemMod : Nat := 2 ^ elemBits

/-- Loop body of `elem_pow` (exponentiation by squaring), from `src/3darr.c`
lines 176-187.  `result *= x` and `x *= x` are `unsigned long`
multiplications, hence reduced modulo `2 ^ 64`.  The loop terminates because
the exponent is halved (`y >>= 1`) on every iteration. -/
def elemPowLoop (x y result : Nat) : Nat :=
  if h : y / 2 = 0 then (if y % 2 = 1 then result * x % elemMod else result)
  else elemPowLoop (x * x % elemMod) (y / 2)
    (if y % 2 = 1 then result * x % elemMod else result)
termination_by y
decreasing_by omega

/-- `elem_pow(x, y)` from `src/3darr.c`: `x` to the `y`-th power in `elem`
arithmetic, computed by squaring, starting from `result = 1`. -/
def elem_pow (x y : Nat) : Nat := elemPowLoop x y 1

/-- The value stored at `arr[i][j][k]` by `mk_arr`:
`elem_pow(2, i) * elem_pow(3, j) * elem_pow(5, k)` with the two `elem`
multiplications (left associated) each reduced modulo `2 ^ 64`. -/
def mkElemVal (i j k : Nat) : Nat :=
  elem_pow 2 i * elem_pow 3 j % elemMod * elem_pow 5 k % elemMod

/-- The stdout line of `print_allocs`:
`"successfully allocated %zu times"`. -/
def allocsLine (n : Nat) : String :=
  "successfully allocated " ++ toString n ++ " times"

/-- The stdout line of `print_arr` for one element:
`"arr[%zu][%zu][%zu] = %lu"`. -/
def elemLine (i j k v : Nat) : String :=
  "arr[" ++ toString i ++ "][" ++ toString j ++ "][" ++ toString k ++
    "] = " ++ toString v

/-- `free_sub_arr_up_to(arr, i, y)` from `src/3darr.c` lines 102-108: for each
`i_ < i`, free the inner blocks `arr[i_][j]` for `j < y`, then the middle
block `arr[i_]`.  By its precondition all these cells hold allocated
(non-`NULL`) blocks, so every `free` call frees exactly the named block. -/
def free_sub_arr_up_to (i y : Nat) : List Event :=
  (List.range i).flatMap fun i_ =>
    ((List.range y).map fun j => Event.free (Ptr.inner i_ j)) ++
      [Event.free (Ptr.mid i_)]

/-- `free_complete_arr(arr, x, y)` from `src/3darr.c` lines 131-134:
`free_sub_arr_up_to(arr, x, y)` followed by `free(arr)`. -/
def free_complete_arr (x y : Nat) : List Event :=
  free_sub_arr_up_to x y ++ [Event.free Ptr.root]

/-- `free_incomplete_arr(arr, y, i, j)` from `src/3darr.c` lines 163-169:
`free_sub_arr_up_to(arr, i, y)`, then the inner blocks `arr[i][j_]` for
`j_ < j`, then `free(arr[i])`, then `free(arr)`.  The parameter
`midAllocated` records whether the cell `arr[i]` holds an allocated block or
`NULL` (at the middle-allocation failure site `arr[i]` is `NULL` and
`free(NULL)` is a no-op, so no free event is emitted for it). -/
def free_incomplete_arr (y i j : Nat) (midAllocated : Bool) : List Event :=
  free_sub_arr_up_to i y ++
    ((List.range j).map fun j_ => Event.free (Ptr.inner i j_)) ++
    (if midAllocated then [Event.free (Ptr.mid i)] else []) ++
    [Event.free Ptr.root]

/-- The inner loop of `mk_arr` (`for (size_t j = 0; j < y; j++)`), iterated
over the remaining inner indices `js` (the loop runs over `List.range y`).
State: outer index `i`, middle extent `y`, allocation counter `a`.  At index
`j`: if the injected failure point is the inner block `(i, j)`, `malloc`
returns `NULL` and the program runs `perror`, `print_allocs`,
`free_incomplete_arr(arr, y, i, j)` (with `arr[i]` allocated) and
`exit(EXIT_FAILURE)`; otherwise the block is allocated, the counter is
incremented, the `z` elements are stored (pure writes, no events) and the
loop continues.  Returns the events, the final counter, and whether the loop
completed. -/
def mkInnerLoop (fp : Option Ptr) (i y a : Nat) : List Nat → List Event × Nat × Bool
  | [] => ([], a, true)
  | j :: js =>
    if fp = some (Ptr.inner i j) then
      (Event.err "array allocation" :: Event.out (allocsLine a) ::
        free_incomplete_arr y i j true ++ [Event.exited false], a, false)
    else
      let r := mkInnerLoop fp i y (a + 1) js
      (Event.alloc (Ptr.inner i j) :: r.1, r.2)

/-- The outer loop of `mk_arr` (`for (size_t i = 0; i < x; i++)`), iterated
over the remaining outer indices (the loop runs over `List.range x`).  At
index `i`: if the injected failure point is the middle block `i`, `malloc`
returns `NULL` and the program runs `perror`, `print_allocs`,
`free_incomplete_arr(arr, y, i, 0)` (with `arr[i] = NULL`) and
`exit(EXIT_FAILURE)`; otherwise the middle block is allocated, the counter
incremented, and the inner loop runs over `List.range y`. -/
def mkMidLoop (fp : Option Ptr) (y a : Nat) : List Nat → List Event × Nat × Bool
  | [] => ([], a, true)
  | i :: is_ =>
    if fp = some (Ptr.mid i) then
      (Event.err "array allocation" :: Event.out (allocsLine a) ::
        free_incomplete_arr y i 0 false ++ [Event.exited false], a, false)
    else
      let r := mkInnerLoop fp i y (a + 1) (List.range y)
      if r.2.2 then
        let r2 := mkMidLoop fp y r.2.1 is_
        (Event.alloc (Ptr.mid i) :: (r.1 ++ r2.1), r2.2)
      else
        (Event.alloc (Ptr.mid i) :: r.1, r.2)

/-- `mk_arr(x, y, z, &allocs)` from `src/3darr.c` lines 203-236 with an
injected failure point.  `*allocs` starts at 0; if the root `malloc` fails
the program runs `perror`, `print_allocs(0)` and `exit(EXIT_FAILURE)`
(nothing was allocated, nothing is freed); otherwise the counter becomes 1
and the nested loops run.  Returns the events, the final value of `*allocs`,
and whether construction succeeded.  The inner extent `z` only sizes the
inner blocks and the pure element writes, so it produces no events. -/
def mk_arr (x y z : Nat) (fp : Option Ptr) : List Event × Nat × Bool :=
  if fp = some Ptr.root then
    ([Event.err "array allocation", Event.out (allocsLine 0),
      Event.exited false], 0, false)
  else
    let r := mkMidLoop fp y 1 (List.range x)
    (Event.alloc Ptr.root :: r.1, r.2)

/-- `print_arr(arr, x, y, z)` from `src/3darr.c` lines 280-290: one stdout
line per element, in nested loop order `i`, then `j`, then `k`.  The element
read at `(i, j, k)` is the value `mk_arr` stored there, `mkElemVal i j k`
(output failure is not modelled; no claim concerns it). -/
def print_arr (x y z : Nat) : List Event :=
  (List.range x).flatMap fun i =>
    (List.range y).flatMap fun j =>
      (List.range z).map fun k => Event.out (elemLine i j k (mkElemVal i j k))

/-- The trace of `main` from the point where the three extents have been
parsed (`src/3darr.c` lines 302-311): run `mk_arr`; on failure `mk_arr`
already exited; on success print the allocation count, print the array, free
everything with `free_complete_arr` and exit with `EXIT_SUCCESS`. -/
def main_run (x y z : Nat) (fp : Option Ptr) : List Event :=
  let r := mk_arr x y z fp
  if r.2.2 then
    r.1 ++ Event.out (allocsLine r.2.1) :: print_arr x y z ++
      free_complete_arr x y ++ [Event.exited true]
  else r.1

/-- `isspace` in the C locale: space, `\t`, `\n`, `\v`, `\f`, `\r`. -/
def c_isspace (c : Char) : Bool :=
  c == ' ' || c == '\t' || c == '\n' || c == '\x0b' || c == '\x0c' || c == '\r'

/-- `isdigit`: `'0'` through `'9'`. -/
def c_isdigit (c : Char) : Bool := '0' ≤ c && c ≤ '9'

/-- Value of a base-10 digit string (most significant digit first). -/
def digitsToNat (ds : List Char) : Nat :=
  ds.foldl (fun a c => a * 10 + (c.toNat - '0'.toNat)) 0

/-- `UINTMAX_MAX` on the 64-bit targets: `2 ^ 64 - 1`. -/
def UINTMAX_MAX : Nat := 2 ^ 64 - 1

/-- `SIZE_MAX` on the 64-bit targets: `2 ^ 64 - 1` (equal to `UINTMAX_MAX`). -/
def SIZE_MAX : Nat := 2 ^ 64 - 1

/-- Model of `strtoumax(arg, &endptr, 10)`: skip whitespace, accept one
optional sign, consume a maximal run of decimal digits.  Returns the
converted value, the rest of the string pointed to by `endptr` (the whole
input when no digits were consumed, per C99), and whether `ERANGE` was set
(value out of range of `uintmax_t`, in which case `UINTMAX_MAX` is
returned).  A `'-'` sign negates the value in `uintmax_t` arithmetic (this
path is unreachable from `get_arg_size_t`, which rejects `'-'` first). -/
def c_strtoumax (s : List Char) : Nat × List Char × Bool :=
  let t := s.dropWhile c_isspace
  let neg := t.head? == some '-'
  let t2 := if t.head? == some '+' || t.head? == some '-' then t.tail else t
  let ds := t2.takeWhile c_isdigit
  let rest := t2.dropWhile c_isdigit
  if ds = [] then (0, s, false)
  else
    let v := digitsToNat ds
    if v > UINTMAX_MAX then (UINTMAX_MAX, rest, true)
    else (if neg then (2 ^ 64 - v % 2 ^ 64) % 2 ^ 64 else v, rest, false)

/-- The three error outcomes of `get_arg_size_t`. -/
inductive ArgErr where
  | mustBePositive : ArgErr
  | failedToParse : ArgErr
  | tooLarge : ArgErr
deriving DecidableEq, Repr

/-- The stderr line printed for each `get_arg_size_t` error outcome. -/
def argErrMsg : ArgErr → String → String
  | ArgErr.mustBePositive, name => "argument " ++ name ++ " must be positive"
  | ArgErr.failedToParse, name => "failed to parse argument " ++ name
  | ArgErr.tooLarge, name => "argument " ++ name ++ " is too large"

/-- `get_arg_size_t(arg, name)` from `src/3darr.c` lines 60-80: skip leading
whitespace on a copy of the pointer; if the first remaining character is
`'-'`, fail with "must be positive"; otherwise run `strtoumax` on the
original string; if the string is empty or `endptr` is not at the
terminator, fail with "failed to parse"; if `ERANGE` was set or the value
exceeds `SIZE_MAX`, fail with "is too large"; otherwise return the value. -/
def get_arg_size_t (arg : List Char) : Except ArgErr Nat :=
  let argptrcpy := arg.dropWhile c_isspace
  if argptrcpy.head? == some '-' then Except.error ArgErr.mustBePositive
  else
    let r := c_strtoumax arg
    if arg = [] ∨ r.2.1 ≠ [] then Except.error ArgErr.failedToParse
    else if r.2.2 = true ∨ r.1 > SIZE_MAX then Except.error ArgErr.tooLarge
    else Except.ok r.1

/-- `main` from `src/3darr.c` lines 297-312, after `ensure_usage`: parse the
three arguments in order `x`, `y`, `z` (each parse error prints its stderr
line and exits with `EXIT_FAILURE` before any allocation), then run the
allocate/print/free sequence. -/
def main_prog (ax ay az : List Char) (fp : Option Ptr) : List Event :=
  match get_arg_size_t ax with
  | Except.error e => [Event.err (argErrMsg e "x"), Event.exited false]
  | Except.ok x =>
    match get_arg_size_t ay with
    | Except.error e => [Event.err (argErrMsg e "y"), Event.exited false]
    | Except.ok y =>
      match get_arg_size_t az with
      | Except.error e => [Event.err (argErrMsg e "z"), Event.exited false]
      | Except.ok z => main_run x y z fp

/-- The blocks allocated during a trace, in order. -/
def allocPtrs (t : List Event) : List Ptr :=
  t.filterMap fun e =>
    match e with
    | Event.alloc p => some p
    | _ => none

/-- The blocks freed during a trace, in order. -/
def freePtrs (t : List Event) : List Ptr :=
  t.filterMap fun e =>
    match e with
    | Event.free p => some p
    | _ => none

/-- The stdout lines of a trace, in order. -/
def outLines (t : List Event) : List String :=
  t.filterMap fun e =>
    match e with
    | Event.out s => some s
    | _ => none

/-- Whether a block is an inner (`elem *`) block. -/
def isInnerPtr : Ptr → Bool
  | Ptr.inner _ _ => true
  | _ => false

/-- The coordinate triples `(i, j, k)` in the order `print_arr` visits them. -/
def printTriples (x y z : Nat) : List (Nat × Nat × Nat) :=
  (List.range x).flatMap fun i =>
    (List.range y).flatMap fun j =>
      (List.range z).map fun k => (i, j, k)

/-- Strict lexicographic order on coordinate triples. -/
def tripleLt (a b : Nat × Nat × Nat) : Prop :=
  a.1 < b.1 ∨ (a.1 = b.1 ∧ (a.2.1 < b.2.1 ∨ (a.2.1 = b.2.1 ∧ a.2.2 < b.2.2)))

/-- First non-whitespace character of the argument is `'-'` (the "negative
argument" shape rejected by `get_arg_size_t`'s explicit check). -/
def argNegative (s : List Char) : Bool :=
  (s.dropWhile c_isspace).head? == some '-'

/-- Non-numeric argument: after optional whitespace and one optional sign,
the string is not a nonempty run of decimal digits reaching the end (no
digits at all — including the empty string — or trailing characters after
the digit run). -/
def argNonNumeric (s : List Char) : Bool :=
  let t := s.dropWhile c_isspace
  let t2 := if t.head? == some '+' || t.head? == some '-' then t.tail else t
  t2.takeWhile c_isdigit == [] || !(t2.dropWhile c_isdigit == [])

/-- Negative or non-numeric argument (claim C6's hypothesis). -/
def argBad (s : List Char) : Bool := argNegative s || argNonNumeric s

/-- The stderr line produced for a negative or non-numeric argument. -/
def badArgMsg (s : List Char) (name : String) : String :=
  if argNegative s then "argument " ++ name ++ " must be positive"
  else "failed to parse argument " ++ name

/-- The allocations of a fully successful `mk_arr` run, in order: the root
block, then for each outer index the middle block followed by its `y` inner
blocks. -/
def successAllocs (x y : Nat) : List Ptr :=
  Ptr.root :: (List.range x).flatMap fun i =>
    Ptr.mid i :: (List.range y).map (Ptr.inner i)

/-- The allocation events of one completed outer iteration of `mk_arr`: the
middle block of outer index `ii` and its `y` inner blocks. -/
def midAllocEvents (y ii : Nat) : List Event :=
  Event.alloc (Ptr.mid ii) :: (List.range y).map fun j => Event.alloc (Ptr.inner ii j)

instance : DecidableEq (Except ArgErr Nat) := fun a b =>
  match a, b with
  | Except.ok v, Except.ok w =>
    if h : v = w then Decidable.isTrue (congrArg Except.ok h)
    else Decidable.isFalse fun hc => h (Except.ok.inj hc)
  | Except.error v, Except.error w =>
    if h : v = w then Decidable.isTrue (congrArg Except.error h)
    else Decidable.isFalse fun hc => h (Except.error.inj hc)
  | Except.ok _, Except.error _ => Decidable.isFalse fun hc => Except.noConfusion hc
  | Except.error _, Except.ok _ => Decidable.isFalse fun hc => Except.noConfusion hc

/-! ## Arithmetic of `elem_pow` and the stored values -/

theorem elemMod_pos : 0 < elemMod := by norm_num [elemMod, elemBits]

theorem one_lt_elemMod : 1 < elemMod := by norm_num [elemMod, elemBits]

/-- Loop invariant of `elem_pow`: modulo `2 ^ 64` the loop computes
`result * x ^ y`. -/
theorem elemPowLoop_mod (y : Nat) : ∀ x r : Nat,
    elemPowLoop x y r % elemMod = r * x ^ y % elemMod := by
  induction y using Nat.strong_induction_on with
  | _ y ih =>
    intro x r
    rw [elemPowLoop.eq_def]
    split
    · next h0 =>
      have hy : y = 0 ∨ y = 1 := by omega
      rcases hy with rfl | rfl
      · simp
      · simp [Nat.mod_mod]
    · next h0 =>
      rw [ih (y / 2) (by omega)]
      have hsplit := Nat.mod_two_eq_zero_or_one y
      have hy : y = 2 * (y / 2) + y % 2 := (Nat.div_add_mod y 2).symm
      have hpow : x ^ y = (x * x) ^ (y / 2) * x ^ (y % 2) := by
        conv_lhs => rw [hy]
        rw [Nat.pow_add, Nat.pow_mul, pow_two]
      rcases hsplit with h2 | h2
      · rw [if_neg (by omega)]
        calc r * (x * x % elemMod) ^ (y / 2) % elemMod
            = r % elemMod * ((x * x % elemMod) ^ (y / 2) % elemMod) % elemMod := by
              rw [← Nat.mul_mod]
          _ = r % elemMod * ((x * x) ^ (y / 2) % elemMod) % elemMod := by
              rw [← Nat.pow_mod]
          _ = r * (x * x) ^ (y / 2) % elemMod := by rw [← Nat.mul_mod]
          _ = r * x ^ y % elemMod := by
              congr 1
              rw [hpow, h2]
              ring
      · rw [if_pos h2]
        calc r * x % elemMod * (x * x % elemMod) ^ (y / 2) % elemMod
            = r * x % elemMod % elemMod * ((x * x % elemMod) ^ (y / 2) % elemMod) %
              elemMod := by rw [← Nat.mul_mod]
          _ = r * x % elemMod * ((x * x) ^ (y / 2) % elemMod) % elemMod := by
              rw [Nat.mod_mod, ← Nat.pow_mod]
          _ = r * x * (x * x) ^ (y / 2) % elemMod := by
              conv_rhs => rw [Nat.mul_mod]
          _ = r * x ^ y % elemMod := by
              congr 1
              rw [hpow, h2]
              ring

/-- The loop keeps its accumulator below `2 ^ 64`. -/
theorem elemPowLoop_lt (y : Nat) : ∀ x r : Nat,
    r < elemMod → elemPowLoop x y r < elemMod := by
  induction y using Nat.strong_induction_on with
  | _ y ih =>
    intro x r hr
    rw [elemPowLoop.eq_def]
    split
    · split
      · exact Nat.mod_lt _ elemMod_pos
      · exact hr
    · next h0 =>
      apply ih (y / 2) (by omega)
      split
      · exact Nat.mod_lt _ elemMod_pos
      · exact hr

/-- `elem_pow` computes exactly `x ^ y` reduced modulo `2 ^ 64`. -/
theorem elem_pow_eq (x y : Nat) : elem_pow x y = x ^ y % elemMod := by
  have h1 := elemPowLoop_mod y x 1
  have h2 := elemPowLoop_lt y x 1 one_lt_elemMod
  calc elem_pow x y = elemPowLoop x y 1 := rfl
    _ = elemPowLoop x y 1 % elemMod := (Nat.mod_eq_of_lt h2).symm
    _ = 1 * x ^ y % elemMod := h1
    _ = x ^ y % elemMod := by rw [Nat.one_mul]

/-- The value stored at `(i, j, k)` is `2^i * 3^j * 5^k` modulo `2 ^ 64`. -/
theorem mkElemVal_eq (i j k : Nat) :
    mkElemVal i j k = 2 ^ i * 3 ^ j * 5 ^ k % elemMod := by
  unfold mkElemVal
  rw [elem_pow_eq, elem_pow_eq, elem_pow_eq]
  have h1 : 2 ^ i % elemMod * (3 ^ j % elemMod) % elemMod =
      2 ^ i * 3 ^ j % elemMod := (Nat.mul_mod _ _ _).symm
  rw [h1, ← Nat.mul_mod]

/-- The exponents of 2, 3, 5 in `2^i * 3^j * 5^k` recover `i`, `j`, `k`. -/
theorem factorization_two_three_five (i j k : Nat) :
    (2 ^ i * 3 ^ j * 5 ^ k : Nat).factorization 2 = i ∧
    (2 ^ i * 3 ^ j * 5 ^ k : Nat).factorization 3 = j ∧
    (2 ^ i * 3 ^ j * 5 ^ k : Nat).factorization 5 = k := by
  have h2 : (2 : Nat) ^ i ≠ 0 := pow_ne_zero _ (by norm_num)
  have h3 : (3 : Nat) ^ j ≠ 0 := pow_ne_zero _ (by norm_num)
  have h5 : (5 : Nat) ^ k ≠ 0 := pow_ne_zero _ (by norm_num)
  rw [Nat.factorization_mul (mul_ne_zero h2 h3) h5, Nat.factorization_mul h2 h3,
    Nat.Prime.factorization_pow Nat.prime_two,
    Nat.Prime.factorization_pow Nat.prime_three,
    Nat.Prime.factorization_pow (by norm_num : Nat.Prime 5)]
  refine ⟨?_, ?_, ?_⟩ <;> simp [Finsupp.single_apply]

/-! ## Trace projections -/

@[simp] theorem allocPtrs_nil : allocPtrs [] = [] := rfl

@[simp] theorem allocPtrs_cons_alloc (p : Ptr) (t : List Event) :
    allocPtrs (Event.alloc p :: t) = p :: allocPtrs t := rfl

@[simp] theorem allocPtrs_cons_free (p : Ptr) (t : List Event) :
    allocPtrs (Event.free p :: t) = allocPtrs t := rfl

@[simp] theorem allocPtrs_cons_out (s : String) (t : List Event) :
    allocPtrs (Event.out s :: t) = allocPtrs t := rfl

@[simp] theorem allocPtrs_cons_err (s : String) (t : List Event) :
    allocPtrs (Event.err s :: t) = allocPtrs t := rfl

@[simp] theorem allocPtrs_cons_exited (b : Bool) (t : List Event) :
    allocPtrs (Event.exited b :: t) = allocPtrs t := rfl

@[simp] theorem allocPtrs_append (s t : List Event) :
    allocPtrs (s ++ t) = allocPtrs s ++ allocPtrs t := by
  simp [allocPtrs]

@[simp] theorem freePtrs_nil : freePtrs [] = [] := rfl

@[simp] theorem freePtrs_cons_alloc (p : Ptr) (t : List Event) :
    freePtrs (Event.alloc p :: t) = freePtrs t := rfl

@[simp] theorem freePtrs_cons_free (p : Ptr) (t : List Event) :
    freePtrs (Event.free p :: t) = p :: freePtrs t := rfl

@[simp] theorem freePtrs_cons_out (s : String) (t : List Event) :
    freePtrs (Event.out s :: t) = freePtrs t := rfl

@[simp] theorem freePtrs_cons_err (s : String) (t : List Event) :
    freePtrs (Event.err s :: t) = freePtrs t := rfl

@[simp] theorem freePtrs_cons_exited (b : Bool) (t : List Event) :
    freePtrs (Event.exited b :: t) = freePtrs t := rfl

@[simp] theorem freePtrs_append (s t : List Event) :
    freePtrs (s ++ t) = freePtrs s ++ freePtrs t := by
  simp [freePtrs]

@[simp] theorem outLines_nil : outLines [] = [] := rfl

@[simp] theorem outLines_cons_alloc (p : Ptr) (t : List Event) :
    outLines (Event.alloc p :: t) = outLines t := rfl

@[simp] theorem outLines_cons_free (p : Ptr) (t : List Event) :
    outLines (Event.free p :: t) = outLines t := rfl

@[simp] theorem outLines_cons_out (s : String) (t : List Event) :
    outLines (Event.out s :: t) = s :: outLines t := rfl

@[simp] theorem outLines_cons_err (s : String) (t : List Event) :
    outLines (Event.err s :: t) = outLines t := rfl

@[simp] theorem outLines_cons_exited (b : Bool) (t : List Event) :
    outLines (Event.exited b :: t) = outLines t := rfl

@[simp] theorem outLines_append (s t : List Event) :
    outLines (s ++ t) = outLines s ++ outLines t := by
  simp [outLines]

@[simp] theorem allocPtrs_map_alloc (g : Nat → Ptr) (l : List Nat) :
    allocPtrs (l.map fun n => Event.alloc (g n)) = l.map g := by
  induction l with
  | nil => rfl
  | cons a l ih => simp [ih]

@[simp] theorem freePtrs_map_alloc (g : Nat → Ptr) (l : List Nat) :
    freePtrs (l.map fun n => Event.alloc (g n)) = [] := by
  induction l with
  | nil => rfl
  | cons a l ih => simp [ih]

@[simp] theorem outLines_map_alloc (g : Nat → Ptr) (l : List Nat) :
    outLines (l.map fun n => Event.alloc (g n)) = [] := by
  induction l with
  | nil => rfl
  | cons a l ih => simp [ih]

@[simp] theorem allocPtrs_map_free (g : Nat → Ptr) (l : List Nat) :
    allocPtrs (l.map fun n => Event.free (g n)) = [] := by
  induction l with
  | nil => rfl
  | cons a l ih => simp [ih]

@[simp] theorem freePtrs_map_free (g : Nat → Ptr) (l : List Nat) :
    freePtrs (l.map fun n => Event.free (g n)) = l.map g := by
  induction l with
  | nil => rfl
  | cons a l ih => simp [ih]

@[simp] theorem outLines_map_free (g : Nat → Ptr) (l : List Nat) :
    outLines (l.map fun n => Event.free (g n)) = [] := by
  induction l with
  | nil => rfl
  | cons a l ih => simp [ih]

@[simp] theorem allocPtrs_map_out (f : Nat → String) (l : List Nat) :
    allocPtrs (l.map fun n => Event.out (f n)) = [] := by
  induction l with
  | nil => rfl
  | cons a l ih => simp [ih]

@[simp] theorem freePtrs_map_out (f : Nat → String) (l : List Nat) :
    freePtrs (l.map fun n => Event.out (f n)) = [] := by
  induction l with
  | nil => rfl
  | cons a l ih => simp [ih]

@[simp] theorem outLines_map_out (f : Nat → String) (l : List Nat) :
    outLines (l.map fun n => Event.out (f n)) = l.map f := by
  induction l with
  | nil => rfl
  | cons a l ih => simp [ih]

@[simp] theorem allocPtrs_flatMap (l : List Nat) (g : Nat → List Event) :
    allocPtrs (l.flatMap g) = l.flatMap fun n => allocPtrs (g n) := by
  induction l with
  | nil => rfl
  | cons a l ih => simp [ih]

@[simp] theorem freePtrs_flatMap (l : List Nat) (g : Nat → List Event) :
    freePtrs (l.flatMap g) = l.flatMap fun n => freePtrs (g n) := by
  induction l with
  | nil => rfl
  | cons a l ih => simp [ih]

@[simp] theorem outLines_flatMap (l : List Nat) (g : Nat → List Event) :
    outLines (l.flatMap g) = l.flatMap fun n => outLines (g n) := by
  induction l with
  | nil => rfl
  | cons a l ih => simp [ih]

@[simp] theorem allocPtrs_free_sub (i y : Nat) :
    allocPtrs (free_sub_arr_up_to i y) = [] := by
  simp [free_sub_arr_up_to, List.flatMap_eq_nil_iff]

@[simp] theorem freePtrs_free_sub (i y : Nat) :
    freePtrs (free_sub_arr_up_to i y) =
      (List.range i).flatMap fun i_ =>
        (List.range y).map (Ptr.inner i_) ++ [Ptr.mid i_] := by
  simp [free_sub_arr_up_to]

@[simp] theorem outLines_free_sub (i y : Nat) :
    outLines (free_sub_arr_up_to i y) = [] := by
  simp [free_sub_arr_up_to, List.flatMap_eq_nil_iff]

@[simp] theorem allocPtrs_free_incomplete (y i j : Nat) (b : Bool) :
    allocPtrs (free_incomplete_arr y i j b) = [] := by
  cases b <;> simp [free_incomplete_arr]

@[simp] theorem freePtrs_free_incomplete (y i j : Nat) (b : Bool) :
    freePtrs (free_incomplete_arr y i j b) =
      ((List.range i).flatMap fun i_ =>
        (List.range y).map (Ptr.inner i_) ++ [Ptr.mid i_]) ++
      (List.range j).map (Ptr.inner i) ++
      (if b then [Ptr.mid i] else []) ++ [Ptr.root] := by
  cases b <;> simp [free_incomplete_arr]

@[simp] theorem outLines_free_incomplete (y i j : Nat) (b : Bool) :
    outLines (free_incomplete_arr y i j b) = [] := by
  cases b <;> simp [free_incomplete_arr]

@[simp] theorem allocPtrs_free_complete (x y : Nat) :
    allocPtrs (free_complete_arr x y) = [] := by
  simp [free_complete_arr]

@[simp] theorem freePtrs_free_complete (x y : Nat) :
    freePtrs (free_complete_arr x y) =
      ((List.range x).flatMap fun i_ =>
        (List.range y).map (Ptr.inner i_) ++ [Ptr.mid i_]) ++ [Ptr.root] := by
  simp [free_complete_arr]

@[simp] theorem outLines_free_complete (x y : Nat) :
    outLines (free_complete_arr x y) = [] := by
  simp [free_complete_arr]

@[simp] theorem allocPtrs_print_arr (x y z : Nat) :
    allocPtrs (print_arr x y z) = [] := by
  simp [print_arr, List.flatMap_eq_nil_iff]

@[simp] theorem freePtrs_print_arr (x y z : Nat) :
    freePtrs (print_arr x y z) = [] := by
  simp [print_arr, List.flatMap_eq_nil_iff]

@[simp] theorem allocPtrs_midAllocEvents (y ii : Nat) :
    allocPtrs (midAllocEvents y ii) =
      Ptr.mid ii :: (List.range y).map (Ptr.inner ii) := by
  simp [midAllocEvents]

@[simp] theorem freePtrs_midAllocEvents (y ii : Nat) :
    freePtrs (midAllocEvents y ii) = [] := by
  simp [midAllocEvents]

@[simp] theorem outLines_midAllocEvents (y ii : Nat) :
    outLines (midAllocEvents y ii) = [] := by
  simp [midAllocEvents]

theorem outLines_print_arr (x y z : Nat) :
    outLines (print_arr x y z) =
      (printTriples x y z).map fun p =>
        elemLine p.1 p.2.1 p.2.2 (mkElemVal p.1 p.2.1 p.2.2) := by
  simp [print_arr, printTriples, List.map_flatMap, List.map_map, Function.comp_def]

/-! ## Characterization of the `mk_arr` loops -/

theorem mkInnerLoop_success (fp : Option Ptr) (i y : Nat) : ∀ (n j a : Nat),
    (∀ jj, j ≤ jj → jj < j + n → fp ≠ some (Ptr.inner i jj)) →
    mkInnerLoop fp i y a (List.range' j n) =
      ((List.range' j n).map fun jj => Event.alloc (Ptr.inner i jj), a + n, true) := by
  intro n
  induction n with
  | zero => intro j a _; simp [mkInnerLoop]
  | succ n ih =>
    intro j a hfp
    rw [List.range'_succ]
    simp only [mkInnerLoop]
    rw [if_neg (hfp j (Nat.le_refl j) (by omega))]
    rw [ih (j + 1) (a + 1) (fun jj h1 h2 => hfp jj (by omega) (by omega))]
    have hcount : a + 1 + n = a + (n + 1) := by omega
    rw [hcount]
    simp

theorem mkInnerLoop_fail (fp : Option Ptr) (i y : Nat) : ∀ (n j a jf : Nat),
    j ≤ jf → jf < j + n → fp = some (Ptr.inner i jf) →
    mkInnerLoop fp i y a (List.range' j n) =
      (((List.range' j (jf - j)).map fun jj => Event.alloc (Ptr.inner i jj)) ++
        Event.err "array allocation" :: Event.out (allocsLine (a + (jf - j))) ::
        free_incomplete_arr y i jf true ++ [Event.exited false],
       a + (jf - j), false) := by
  intro n
  induction n with
  | zero => intro j a jf h1 h2 _; omega
  | succ n ih =>
    intro j a jf h1 h2 h3
    rw [List.range'_succ]
    simp only [mkInnerLoop]
    by_cases hj : jf = j
    · subst hj
      rw [if_pos h3]
      simp
    · rw [if_neg (by simp only [h3, Option.some.injEq, Ptr.inner.injEq]; omega)]
      rw [ih (j + 1) (a + 1) jf (by omega) (by omega) h3]
      have hd : jf - j = (jf - (j + 1)) + 1 := by omega
      have hcount : a + 1 + (jf - (j + 1)) = a + (jf - (j + 1) + 1) := by omega
      rw [hd, hcount]
      simp [List.range'_succ]

theorem mkMidLoop_success (fp : Option Ptr) (y : Nat) : ∀ (n i a : Nat),
    (∀ ii, i ≤ ii → ii < i + n → fp ≠ some (Ptr.mid ii)) →
    (∀ ii jj, i ≤ ii → ii < i + n → jj < y → fp ≠ some (Ptr.inner ii jj)) →
    mkMidLoop fp y a (List.range' i n) =
      ((List.range' i n).flatMap (midAllocEvents y), a + n * (1 + y), true) := by
  intro n
  induction n with
  | zero => intro i a _ _; simp [mkMidLoop]
  | succ n ih =>
    intro i a hmid hinner
    rw [List.range'_succ]
    simp only [mkMidLoop]
    rw [if_neg (hmid i (Nat.le_refl i) (by omega))]
    rw [List.range_eq_range',
      mkInnerLoop_success fp i y y 0 (a + 1)
        (fun jj _ h2 => hinner i jj (Nat.le_refl i) (by omega) (by omega))]
    simp only
    rw [ih (i + 1) (a + 1 + y)
      (fun ii h1 h2 => hmid ii (by omega) (by omega))
      (fun ii jj h1 h2 h3 => hinner ii jj (by omega) (by omega) h3)]
    have hcount : a + 1 + y + n * (1 + y) = a + (n + 1) * (1 + y) := by ring
    rw [hcount]
    simp [midAllocEvents, List.range_eq_range', List.range'_succ, List.append_assoc]

theorem mkMidLoop_failMid (fp : Option Ptr) (y : Nat) : ∀ (n i a ifx : Nat),
    i ≤ ifx → ifx < i + n → fp = some (Ptr.mid ifx) →
    mkMidLoop fp y a (List.range' i n) =
      ((List.range' i (ifx - i)).flatMap (midAllocEvents y) ++
        Event.err "array allocation" ::
        Event.out (allocsLine (a + (ifx - i) * (1 + y))) ::
        free_incomplete_arr y ifx 0 false ++ [Event.exited false],
       a + (ifx - i) * (1 + y), false) := by
  intro n
  induction n with
  | zero => intro i a ifx h1 h2 _; omega
  | succ n ih =>
    intro i a ifx h1 h2 h3
    rw [List.range'_succ]
    simp only [mkMidLoop]
    by_cases hi : ifx = i
    · subst hi
      rw [if_pos h3]
      simp
    · rw [if_neg (by simp only [h3, Option.some.injEq, Ptr.mid.injEq]; omega)]
      rw [List.range_eq_range',
        mkInnerLoop_success fp i y y 0 (a + 1)
          (fun jj _ _ => by simp [h3])]
      simp only
      rw [ih (i + 1) (a + 1 + y) ifx (by omega) (by omega) h3]
      have hd : ifx - i = (ifx - (i + 1)) + 1 := by omega
      have hcount : a + 1 + y + (ifx - (i + 1)) * (1 + y) =
          a + ((ifx - (i + 1)) + 1) * (1 + y) := by ring
      rw [hd, hcount]
      simp [midAllocEvents, List.range_eq_range', List.range'_succ,
        List.append_assoc]

theorem mkMidLoop_failInner (fp : Option Ptr) (y : Nat) : ∀ (n i a ifx jf : Nat),
    i ≤ ifx → ifx < i + n → jf < y → fp = some (Ptr.inner ifx jf) →
    mkMidLoop fp y a (List.range' i n) =
      ((List.range' i (ifx - i)).flatMap (midAllocEvents y) ++
        Event.alloc (Ptr.mid ifx) ::
          (((List.range' 0 jf).map fun jj => Event.alloc (Ptr.inner ifx jj)) ++
            Event.err "array allocation" ::
            Event.out (allocsLine (a + (ifx - i) * (1 + y) + 1 + jf)) ::
            free_incomplete_arr y ifx jf true ++ [Event.exited false]),
       a + (ifx - i) * (1 + y) + 1 + jf, false) := by
  intro n
  induction n with
  | zero => intro i a ifx jf h1 h2 _ _; omega
  | succ n ih =>
    intro i a ifx jf h1 h2 hjf h3
    rw [List.range'_succ]
    simp only [mkMidLoop]
    by_cases hi : ifx = i
    · subst hi
      rw [if_neg (by simp [h3])]
      rw [List.range_eq_range',
        mkInnerLoop_fail fp ifx y y 0 (a + 1) jf (Nat.zero_le jf) (by omega) h3]
      simp
    · rw [if_neg (by simp [h3])]
      rw [List.range_eq_range',
        mkInnerLoop_success fp i y y 0 (a + 1)
          (fun jj _ _ => by
            rw [h3]
            intro hc
            injection hc with hc1
            injection hc1 with hA hB
            exact hi hA)]
      simp only
      rw [ih (i + 1) (a + 1 + y) ifx jf (by omega) (by omega) hjf h3]
      have hd : ifx - i = (ifx - (i + 1)) + 1 := by omega
      have hcount : a + 1 + y + (ifx - (i + 1)) * (1 + y) + 1 + jf =
          a + ((ifx - (i + 1)) + 1) * (1 + y) + 1 + jf := by ring
      rw [hd, hcount]
      simp [midAllocEvents, List.range_eq_range', List.range'_succ,
        List.append_assoc]

/-- A run of `mk_arr` at which the injected failure point is never reached
(in particular `fp = none`) builds the whole structure: the trace is the
root allocation followed by one `midAllocEvents` group per outer index, and
the final allocation count is `1 + x * (1 + y)`. -/
theorem mk_arr_success (x y z : Nat) (fp : Option Ptr)
    (hroot : fp ≠ some Ptr.root)
    (hmid : ∀ ii, ii < x → fp ≠ some (Ptr.mid ii))
    (hinner : ∀ ii jj, ii < x → jj < y → fp ≠ some (Ptr.inner ii jj)) :
    mk_arr x y z fp =
      (Event.alloc Ptr.root :: (List.range x).flatMap (midAllocEvents y),
       1 + x * (1 + y), true) := by
  unfold mk_arr
  rw [if_neg hroot, List.range_eq_range',
    mkMidLoop_success fp y x 0 1
      (fun ii _ h2 => hmid ii (by omega))
      (fun ii jj _ h2 h3 => hinner ii jj (by omega) h3)]

theorem mk_arr_none (x y z : Nat) :
    mk_arr x y z none =
      (Event.alloc Ptr.root :: (List.range x).flatMap (midAllocEvents y),
       1 + x * (1 + y), true) :=
  mk_arr_success x y z none (by simp) (fun _ _ => by simp) (fun _ _ _ _ => by simp)

theorem mk_arr_failRoot (x y z : Nat) :
    mk_arr x y z (some Ptr.root) =
      ([Event.err "array allocation", Event.out (allocsLine 0),
        Event.exited false], 0, false) := by
  simp [mk_arr]

theorem mk_arr_failMid (x y z ifx : Nat) (h : ifx < x) :
    mk_arr x y z (some (Ptr.mid ifx)) =
      (Event.alloc Ptr.root ::
        ((List.range ifx).flatMap (midAllocEvents y) ++
          Event.err "array allocation" ::
          Event.out (allocsLine (1 + ifx * (1 + y))) ::
          free_incomplete_arr y ifx 0 false ++ [Event.exited false]),
       1 + ifx * (1 + y), false) := by
  unfold mk_arr
  rw [if_neg (by simp), List.range_eq_range',
    mkMidLoop_failMid (some (Ptr.mid ifx)) y x 0 1 ifx (Nat.zero_le ifx)
      (by omega) rfl]
  simp [List.range_eq_range']

theorem mk_arr_failInner (x y z ifx jf : Nat) (hx : ifx < x) (hy : jf < y) :
    mk_arr x y z (some (Ptr.inner ifx jf)) =
      (Event.alloc Ptr.root ::
        ((List.range ifx).flatMap (midAllocEvents y) ++
          Event.alloc (Ptr.mid ifx) ::
            (((List.range jf).map fun jj => Event.alloc (Ptr.inner ifx jj)) ++
              Event.err "array allocation" ::
              Event.out (allocsLine (1 + ifx * (1 + y) + 1 + jf)) ::
              free_incomplete_arr y ifx jf true ++ [Event.exited false])),
       1 + ifx * (1 + y) + 1 + jf, false) := by
  unfold mk_arr
  rw [if_neg (by simp), List.range_eq_range',
    mkMidLoop_failInner (some (Ptr.inner ifx jf)) y x 0 1 ifx jf
      (Nat.zero_le ifx) (by omega) hy rfl]
  simp [List.range_eq_range']

/-! ## Shape of complete `main` runs -/

theorem main_run_success_eq (x y z : Nat) (fp : Option Ptr)
    (hroot : fp ≠ some Ptr.root)
    (hmid : ∀ ii, ii < x → fp ≠ some (Ptr.mid ii))
    (hinner : ∀ ii jj, ii < x → jj < y → fp ≠ some (Ptr.inner ii jj)) :
    main_run x y z fp =
      (Event.alloc Ptr.root :: (List.range x).flatMap (midAllocEvents y)) ++
        Event.out (allocsLine (1 + x * (1 + y))) :: print_arr x y z ++
        free_complete_arr x y ++ [Event.exited true] := by
  unfold main_run
  rw [mk_arr_success x y z fp hroot hmid hinner]
  simp

theorem main_run_fail_eq (x y z : Nat) (fp : Option Ptr)
    (h : (mk_arr x y z fp).2.2 = false) :
    main_run x y z fp = (mk_arr x y z fp).1 := by
  unfold main_run
  simp [h]

/-! ## Allocation/free balance -/

theorem perm_append_singleton_move {α : Type} (l : List α) (a : α) :
    (l ++ [a]).Perm (a :: l) := by
  have h2 := @List.perm_middle α a l []
  rw [List.append_nil] at h2
  exact h2

theorem perm_allocs_frees_core (m y : Nat) :
    (Ptr.root :: (List.range m).flatMap fun i =>
        Ptr.mid i :: (List.range y).map (Ptr.inner i)).Perm
      (((List.range m).flatMap fun i =>
        (List.range y).map (Ptr.inner i) ++ [Ptr.mid i]) ++ [Ptr.root]) := by
  have h1 : ((List.range m).flatMap fun i =>
      Ptr.mid i :: (List.range y).map (Ptr.inner i)).Perm
      ((List.range m).flatMap fun i =>
        (List.range y).map (Ptr.inner i) ++ [Ptr.mid i]) := by
    refine List.Perm.flatMap_left _ fun i _ => ?_
    exact (perm_append_singleton_move _ _).symm
  refine (List.Perm.cons _ h1).trans ?_
  exact (perm_append_singleton_move _ _).symm

theorem successAllocs_nodup (x y : Nat) : (successAllocs x y).Nodup := by
  unfold successAllocs
  rw [List.nodup_cons]
  constructor
  · simp [List.mem_flatMap]
  · rw [List.nodup_flatMap]
    constructor
    · intro i _
      rw [List.nodup_cons]
      constructor
      · simp
      · refine List.Nodup.map ?_ (List.nodup_range y)
        intro a b hab
        injection hab
    · refine (List.nodup_range x).imp ?_
      intro a b hab p hp1 hp2
      simp only [List.mem_cons, List.mem_map] at hp1 hp2
      rcases hp1 with rfl | ⟨j1, _, rfl⟩
      · rcases hp2 with heq | ⟨j2, _, heq⟩
        · exact hab (Ptr.mid.inj heq)
        · exact Ptr.noConfusion heq
      · rcases hp2 with heq | ⟨j2, _, heq⟩
        · exact Ptr.noConfusion heq
        · exact hab ((Ptr.inner.inj heq).1.symm)

theorem sublist_flatMap_of_sublist {α β : Type} (f : α → List β)
    {l1 l2 : List α} (h : l1.Sublist l2) :
    (l1.flatMap f).Sublist (l2.flatMap f) := by
  induction h with
  | slnil => exact List.Sublist.refl _
  | cons a h ih => exact ih.trans (List.sublist_append_right _ _)
  | cons₂ a h ih => exact ih.append_left (f a)

/-- The allocations of a run that failed at inner index `(ifx, jf)` form a
sublist of the allocations of a complete run with `ifx + 1` outer groups,
hence are also without duplicates. -/
theorem partialAllocs_nodup (ifx jf y : Nat) (hjf : jf ≤ y) :
    (Ptr.root :: ((List.range ifx).flatMap (fun i =>
        Ptr.mid i :: (List.range y).map (Ptr.inner i)) ++
      Ptr.mid ifx :: (List.range jf).map (Ptr.inner ifx))).Nodup := by
  have hsub : (Ptr.root :: ((List.range ifx).flatMap (fun i =>
      Ptr.mid i :: (List.range y).map (Ptr.inner i)) ++
      Ptr.mid ifx :: (List.range jf).map (Ptr.inner ifx))).Sublist
      (successAllocs (ifx + 1) y) := by
    unfold successAllocs
    refine List.Sublist.cons₂ _ ?_
    rw [List.range_succ, List.flatMap_append]
    simp only [List.flatMap_cons, List.flatMap_nil, List.append_nil]
    refine List.Sublist.append_left ?_ _
    refine List.Sublist.cons₂ _ ?_
    exact List.Sublist.map _ (List.range_sublist.mpr hjf)
  exact (successAllocs_nodup (ifx + 1) y).sublist hsub

@[simp] theorem flatMap_const_nil {α β : Type} (l : List α) :
    (l.flatMap fun _ => ([] : List β)) = [] := by
  induction l with
  | nil => rfl
  | cons a l ih => simp [ih]

theorem balance_success (x y z : Nat) (fp : Option Ptr)
    (hroot : fp ≠ some Ptr.root)
    (hmid : ∀ ii, ii < x → fp ≠ some (Ptr.mid ii))
    (hinner : ∀ ii jj, ii < x → jj < y → fp ≠ some (Ptr.inner ii jj)) :
    (allocPtrs (main_run x y z fp)).Nodup ∧
    (allocPtrs (main_run x y z fp)).Perm (freePtrs (main_run x y z fp)) := by
  rw [main_run_success_eq x y z fp hroot hmid hinner]
  constructor
  · simpa [successAllocs] using successAllocs_nodup x y
  · simp only [allocPtrs_append, freePtrs_append, allocPtrs_cons_alloc,
      freePtrs_cons_alloc, allocPtrs_cons_out, freePtrs_cons_out,
      allocPtrs_cons_exited, freePtrs_cons_exited, allocPtrs_flatMap,
      freePtrs_flatMap, allocPtrs_midAllocEvents, freePtrs_midAllocEvents,
      allocPtrs_print_arr, freePtrs_print_arr, allocPtrs_free_complete,
      freePtrs_free_complete, allocPtrs_nil, freePtrs_nil, flatMap_const_nil,
      List.append_nil, List.nil_append, List.flatMap_nil]
    exact perm_allocs_frees_core x y

theorem balance_failMid (x y z ifx : Nat) (h : ifx < x) :
    (allocPtrs (main_run x y z (some (Ptr.mid ifx)))).Nodup ∧
    (allocPtrs (main_run x y z (some (Ptr.mid ifx)))).Perm
      (freePtrs (main_run x y z (some (Ptr.mid ifx)))) := by
  have hfail : (mk_arr x y z (some (Ptr.mid ifx))).2.2 = false := by
    rw [mk_arr_failMid x y z ifx h]
  rw [main_run_fail_eq x y z _ hfail, mk_arr_failMid x y z ifx h]
  constructor
  · simpa [successAllocs] using successAllocs_nodup ifx y
  · simp only [allocPtrs_append, freePtrs_append, allocPtrs_cons_alloc,
      freePtrs_cons_alloc, allocPtrs_cons_out, freePtrs_cons_out,
      allocPtrs_cons_err, freePtrs_cons_err,
      allocPtrs_cons_exited, freePtrs_cons_exited, allocPtrs_flatMap,
      freePtrs_flatMap, allocPtrs_midAllocEvents, freePtrs_midAllocEvents,
      allocPtrs_free_incomplete, freePtrs_free_incomplete,
      allocPtrs_nil, freePtrs_nil, Bool.false_eq_true, if_false,
      flatMap_const_nil, List.range_zero, List.map_nil,
      List.append_nil, List.nil_append, List.flatMap_nil]
    exact perm_allocs_frees_core ifx y

theorem balance_failInner (x y z ifx jf : Nat) (hx : ifx < x) (hy : jf < y) :
    (allocPtrs (main_run x y z (some (Ptr.inner ifx jf)))).Nodup ∧
    (allocPtrs (main_run x y z (some (Ptr.inner ifx jf)))).Perm
      (freePtrs (main_run x y z (some (Ptr.inner ifx jf)))) := by
  have hfail : (mk_arr x y z (some (Ptr.inner ifx jf))).2.2 = false := by
    rw [mk_arr_failInner x y z ifx jf hx hy]
  rw [main_run_fail_eq x y z _ hfail, mk_arr_failInner x y z ifx jf hx hy]
  constructor
  · simpa using partialAllocs_nodup ifx jf y (Nat.le_of_lt hy)
  · simp only [allocPtrs_append, freePtrs_append, allocPtrs_cons_alloc,
      freePtrs_cons_alloc, allocPtrs_cons_out, freePtrs_cons_out,
      allocPtrs_cons_err, freePtrs_cons_err, allocPtrs_map_alloc,
      freePtrs_map_alloc, allocPtrs_cons_exited, freePtrs_cons_exited,
      allocPtrs_flatMap, freePtrs_flatMap, allocPtrs_midAllocEvents,
      freePtrs_midAllocEvents, allocPtrs_free_incomplete,
      freePtrs_free_incomplete, allocPtrs_nil, freePtrs_nil, if_true,
      flatMap_const_nil, List.append_nil, List.nil_append, List.flatMap_nil,
      List.append_assoc]
    have h1 : ((List.range ifx).flatMap fun n =>
        Ptr.mid n :: List.map (Ptr.inner n) (List.range y)).Perm
        ((List.range ifx).flatMap fun i_ =>
          List.map (Ptr.inner i_) (List.range y) ++ [Ptr.mid i_]) :=
      List.Perm.flatMap_left _ fun i _ => (perm_append_singleton_move _ _).symm
    have h2 := h1.append
      (List.Perm.refl (Ptr.mid ifx :: List.map (Ptr.inner ifx) (List.range jf)))
    have h3 : (Ptr.mid ifx :: List.map (Ptr.inner ifx) (List.range jf)).Perm
        (List.map (Ptr.inner ifx) (List.range jf) ++ [Ptr.mid ifx]) :=
      (perm_append_singleton_move _ _).symm
    have h4 := h2.trans (List.Perm.append_left
      ((List.range ifx).flatMap fun i_ =>
        List.map (Ptr.inner i_) (List.range y) ++ [Ptr.mid i_]) h3)
    have h5 := (h4.cons Ptr.root).trans
      ((perm_append_singleton_move
        (((List.range ifx).flatMap fun i_ =>
          List.map (Ptr.inner i_) (List.range y) ++ [Ptr.mid i_]) ++
          (List.map (Ptr.inner ifx) (List.range jf) ++ [Ptr.mid ifx]))
        Ptr.root).symm)
    refine h5.trans ?_
    rw [List.append_assoc, List.append_assoc]

/-- C1: for every extents triple `(x, y, z)` and every injected
allocation-failure point — the root allocation (nothing freed beneath the
root), a middle allocation at outer index `i` (cleanup marker `(i, 0)`), an
inner allocation at `(i, j)` (marker `(i, j)`), or no failure at all (full
teardown, marker `(x, y)`) — the cleanup frees exactly the set of
allocations successfully made before the failure point: the allocated
blocks are pairwise distinct and the freed blocks are a permutation of
them, so every successful allocation has exactly one matching release, with
no double free and no leak. -/
theorem c1_cleanup_exact (x y z : Nat) (fp : Option Ptr) :
    (allocPtrs (main_run x y z fp)).Nodup ∧
    (allocPtrs (main_run x y z fp)).Perm (freePtrs (main_run x y z fp)) := by
  rcases fp with _ | p
  · exact balance_success x y z none (by simp) (fun _ _ => by simp)
      (fun _ _ _ _ => by simp)
  · rcases p with _ | ii | ⟨ii, jj⟩
    · have hfail : (mk_arr x y z (some Ptr.root)).2.2 = false := by
        rw [mk_arr_failRoot]
      rw [main_run_fail_eq x y z _ hfail, mk_arr_failRoot]
      exact ⟨by simp, by simp⟩
    · by_cases hx : ii < x
      · exact balance_failMid x y z ii hx
      · refine balance_success x y z _ (by simp) (fun i2 h2 => ?_)
          (fun _ _ _ _ => by simp)
        simp only [ne_eq, Option.some.injEq, Ptr.mid.injEq]
        omega
    · by_cases hx : ii < x
      · by_cases hy : jj < y
        · exact balance_failInner x y z ii jj hx hy
        · refine balance_success x y z _ (by simp) (fun _ _ => by simp)
            (fun i2 j2 h2 h3 => ?_)
          simp only [ne_eq, Option.some.injEq, Ptr.inner.injEq, not_and]
          intro h4
          omega
      · refine balance_success x y z _ (by simp) (fun _ _ => by simp)
          (fun i2 j2 h2 h3 => ?_)
        simp only [ne_eq, Option.some.injEq, Ptr.inner.injEq, not_and]
        intro h4
        omega

theorem filter_inner_map (i : Nat) (l : List Nat) :
    (l.map (Ptr.inner i)).filter isInnerPtr = l.map (Ptr.inner i) := by
  rw [List.filter_eq_self]
  intro a ha
  rcases List.mem_map.mp ha with ⟨j, _, rfl⟩
  rfl

theorem filter_inner_length (y : Nat) (l : List Nat) :
    ((l.flatMap fun i =>
      Ptr.mid i :: (List.range y).map (Ptr.inner i)).filter isInnerPtr).length =
      l.length * y := by
  induction l with
  | nil => simp
  | cons a l ih =>
    rw [List.flatMap_cons, List.filter_append, List.length_append, ih,
      List.filter_cons]
    have hmid : isInnerPtr (Ptr.mid a) = false := rfl
    rw [hmid]
    simp only [Bool.false_eq_true, if_false, filter_inner_map,
      List.length_map, List.length_range, List.length_cons]
    ring

/-- C3: on a fully successful run, the final allocation count written by
`mk_arr` (and reported through `print_allocs`) equals `1 + x + x*y`, which
specializes to `1` when `x = 0` and to `1 + x` when `y = 0`; the number of
inner-level allocations performed equals `x * y` (this holds for all
extents, in particular when `x, y > 0`). -/
theorem c3_alloc_count (x y z : Nat) :
    (mk_arr x y z none).2.1 = 1 + x + x * y ∧
    (outLines (main_run x y z none)).head? = some (allocsLine (1 + x + x * y)) ∧
    ((allocPtrs (mk_arr x y z none).1).filter isInnerPtr).length = x * y := by
  have harith : 1 + x * (1 + y) = 1 + x + x * y := by ring
  refine ⟨?_, ?_, ?_⟩
  · rw [mk_arr_none]
    exact harith
  · rw [main_run_success_eq x y z none (by simp) (fun _ _ => by simp)
      (fun _ _ _ _ => by simp)]
    simp [harith]
  · rw [mk_arr_none]
    simp only [allocPtrs_cons_alloc, allocPtrs_flatMap, allocPtrs_midAllocEvents]
    rw [List.filter_cons]
    have hroot : isInnerPtr Ptr.root = false := rfl
    rw [hroot]
    simp only [Bool.false_eq_true, if_false]
    rw [filter_inner_length]
    rw [List.length_range]

/-- C5: when any extent is zero, the successful run prints no element lines
— its only stdout line is the allocation-count line, whose count follows
the formula `1 + x + x*y` (hence `1` for `x = 0`, `1 + x` for `y = 0`) —
and the process exits with the success code. -/
theorem c5_zero_extent (x y z : Nat) (h : x = 0 ∨ y = 0 ∨ z = 0) :
    outLines (main_run x y z none) = [allocsLine (1 + x + x * y)] ∧
    (main_run x y z none).getLast? = some (Event.exited true) := by
  have harith : 1 + x * (1 + y) = 1 + x + x * y := by ring
  have hprint : print_arr x y z = [] := by
    rcases h with rfl | rfl | rfl <;> simp [print_arr, List.flatMap_eq_nil_iff]
  rw [main_run_success_eq x y z none (by simp) (fun _ _ => by simp)
    (fun _ _ _ _ => by simp)]
  constructor
  · simp [hprint, harith]
  · rw [List.getLast?_concat]

/-- Witness for C5 at extents `(0, 5, 5)`. -/
theorem c5_zero_extent_witness :
    ((0 : Nat) = 0 ∨ (5 : Nat) = 0 ∨ (5 : Nat) = 0) ∧
    (outLines (main_run 0 5 5 none) = [allocsLine (1 + 0 + 0 * 5)] ∧
      (main_run 0 5 5 none).getLast? = some (Event.exited true)) :=
  ⟨Or.inl rfl, c5_zero_extent 0 5 5 (Or.inl rfl)⟩

/-- Helper for C7: `Pairwise` over a `flatMap` from pieces and
cross-piece bounds. -/
theorem pairwise_flatMap_of {α β : Type} {R : β → β → Prop} {l : List α}
    {f : α → List β}
    (h1 : ∀ a ∈ l, List.Pairwise R (f a))
    (h2 : List.Pairwise (fun a1 a2 => ∀ u ∈ f a1, ∀ v ∈ f a2, R u v) l) :
    List.Pairwise R (l.flatMap f) :=
  List.pairwise_flatMap.mpr ⟨h1, h2⟩

theorem printTriples_pairwise (x y z : Nat) :
    List.Pairwise tripleLt (printTriples x y z) := by
  unfold printTriples
  refine pairwise_flatMap_of (fun i _ => ?_) ?_
  · refine pairwise_flatMap_of (fun j _ => ?_) ?_
    · rw [List.pairwise_map]
      refine (List.pairwise_lt_range z).imp ?_
      intro k1 k2 hk
      exact Or.inr ⟨rfl, Or.inr ⟨rfl, hk⟩⟩
    · refine (List.pairwise_lt_range y).imp ?_
      intro j1 j2 hj u hu v hv
      rcases List.mem_map.mp hu with ⟨k1, _, rfl⟩
      rcases List.mem_map.mp hv with ⟨k2, _, rfl⟩
      exact Or.inr ⟨rfl, Or.inl hj⟩
  · refine (List.pairwise_lt_range x).imp ?_
    intro i1 i2 hi u hu v hv
    rcases List.mem_flatMap.mp hu with ⟨j1, _, hu2⟩
    rcases List.mem_map.mp hu2 with ⟨k1, _, rfl⟩
    rcases List.mem_flatMap.mp hv with ⟨j2, _, hv2⟩
    rcases List.mem_map.mp hv2 with ⟨k2, _, rfl⟩
    exact Or.inl hi

theorem printTriples_mem (x y z : Nat) (p : Nat × Nat × Nat) :
    p ∈ printTriples x y z ↔ p.1 < x ∧ p.2.1 < y ∧ p.2.2 < z := by
  unfold printTriples
  simp only [List.mem_flatMap, List.mem_map, List.mem_range]
  constructor
  · rintro ⟨i, hi, j, hj, k, hk, rfl⟩
    exact ⟨hi, hj, hk⟩
  · rintro ⟨h1, h2, h3⟩
    exact ⟨p.1, h1, p.2.1, h2, p.2.2, h3, rfl⟩

theorem tripleLt_ne (a b : Nat × Nat × Nat) (h : tripleLt a b) : a ≠ b := by
  rintro rfl
  rcases h with h | ⟨_, h | ⟨_, h⟩⟩ <;> omega

/-- C7: on a successful run the stdout lines are the allocation-count line
followed by exactly one line `"arr[i][j][k] = v"` per coordinate triple
`(i, j, k)` with `i < x`, `j < y`, `k < z` (each triple occurs exactly
once), and the triples appear in strictly increasing lexicographic order. -/
theorem c7_print_order (x y z : Nat) :
    outLines (main_run x y z none) =
      allocsLine (1 + x + x * y) ::
        (printTriples x y z).map (fun p =>
          elemLine p.1 p.2.1 p.2.2 (mkElemVal p.1 p.2.1 p.2.2)) ∧
    List.Pairwise tripleLt (printTriples x y z) ∧
    (printTriples x y z).Nodup ∧
    (∀ p : Nat × Nat × Nat,
      p ∈ printTriples x y z ↔ p.1 < x ∧ p.2.1 < y ∧ p.2.2 < z) := by
  have harith : 1 + x * (1 + y) = 1 + x + x * y := by ring
  refine ⟨?_, printTriples_pairwise x y z, ?_, printTriples_mem x y z⟩
  · rw [main_run_success_eq x y z none (by simp) (fun _ _ => by simp)
      (fun _ _ _ _ => by simp)]
    simp [harith, outLines_print_arr]
  · exact (printTriples_pairwise x y z).imp
      (fun hlt => tripleLt_ne _ _ hlt)

/-- C2 (amended): the element stored and printed at `(i, j, k)` equals
`2^i * 3^j * 5^k` reduced modulo `2 ^ 64` (the `elem` width); the value is
a pure function of the coordinates, so it is independent of print order.
The unreduced equality claimed by the spec fails once the product wraps
around (see the counterexample at `i = 64`). -/
theorem c2_value_rule (x y z i j k : Nat) (hi : i < x) (hj : j < y)
    (hk : k < z) :
    mkElemVal i j k = 2 ^ i * 3 ^ j * 5 ^ k % 2 ^ 64 ∧
    Event.out (elemLine i j k (mkElemVal i j k)) ∈ main_run x y z none := by
  constructor
  · rw [mkElemVal_eq]
    rfl
  · have hmem : Event.out (elemLine i j k (mkElemVal i j k)) ∈ print_arr x y z := by
      unfold print_arr
      rw [List.mem_flatMap]
      refine ⟨i, List.mem_range.mpr hi, ?_⟩
      rw [List.mem_flatMap]
      exact ⟨j, List.mem_range.mpr hj, List.mem_map.mpr
        ⟨k, List.mem_range.mpr hk, rfl⟩⟩
    rw [main_run_success_eq x y z none (by simp) (fun _ _ => by simp)
      (fun _ _ _ _ => by simp)]
    simp [List.mem_append, hmem]

/-- Witness for C2 at `x = y = z = 1`, `(i, j, k) = (0, 0, 0)`. -/
theorem c2_value_rule_witness :
    (0 : Nat) < 1 ∧
    (mkElemVal 0 0 0 = 2 ^ 0 * 3 ^ 0 * 5 ^ 0 % 2 ^ 64 ∧
      Event.out (elemLine 0 0 0 (mkElemVal 0 0 0)) ∈ main_run 1 1 1 none) :=
  ⟨by decide, c2_value_rule 1 1 1 0 0 0 (by decide) (by decide) (by decide)⟩

/-- Counterexample to C2 as stated: at `(i, j, k) = (64, 0, 0)` (reachable
with extents `x = 65`, `y = z = 1`) the stored element is
`2^64 mod 2^64 = 0`, not the mathematical value `2^64 * 3^0 * 5^0`. -/
theorem c2_value_rule_cx : mkElemVal 64 0 0 ≠ 2 ^ 64 * 3 ^ 0 * 5 ^ 0 := by
  rw [mkElemVal_eq]
  decide

/-- C8 (amended): the map `(i, j, k) ↦ 2^i * 3^j * 5^k` as computed in
`elem` arithmetic is injective on all coordinate triples whose mathematical
value fits in the element type (is `< 2 ^ 64`); by unique factorization two
distinct such triples store different values.  Without that restriction the
claim fails by wraparound (see the counterexample). -/
theorem c8_value_injective (i j k i2 j2 k2 : Nat)
    (h1 : 2 ^ i * 3 ^ j * 5 ^ k < 2 ^ 64)
    (h2 : 2 ^ i2 * 3 ^ j2 * 5 ^ k2 < 2 ^ 64)
    (heq : mkElemVal i j k = mkElemVal i2 j2 k2) :
    (i, j, k) = (i2, j2, k2) := by
  rw [mkElemVal_eq, mkElemVal_eq] at heq
  have hm1 : (2 ^ i * 3 ^ j * 5 ^ k : Nat) % elemMod = 2 ^ i * 3 ^ j * 5 ^ k :=
    Nat.mod_eq_of_lt h1
  have hm2 : (2 ^ i2 * 3 ^ j2 * 5 ^ k2 : Nat) % elemMod =
      2 ^ i2 * 3 ^ j2 * 5 ^ k2 := Nat.mod_eq_of_lt h2
  rw [hm1, hm2] at heq
  obtain ⟨e1, e2, e3⟩ := factorization_two_three_five i j k
  obtain ⟨f1, f2, f3⟩ := factorization_two_three_five i2 j2 k2
  have hi : i = i2 := by rw [← e1, ← f1, heq]
  have hj : j = j2 := by rw [← e2, ← f2, heq]
  have hk : k = k2 := by rw [← e3, ← f3, heq]
  rw [hi, hj, hk]

/-- Witness for C8 at the all-zero triples. -/
theorem c8_value_injective_witness :
    (2 ^ 0 * 3 ^ 0 * 5 ^ 0 : Nat) < 2 ^ 64 ∧
    ((0, 0, 0) : Nat × Nat × Nat) = (0, 0, 0) :=
  ⟨by decide, c8_value_injective 0 0 0 0 0 0 (by decide) (by decide) rfl⟩

/-- Counterexample to C8 as stated: the distinct triples `(64, 0, 0)` and
`(65, 0, 0)` store the same element value (both wrap to 0 modulo `2^64`). -/
theorem c8_value_injective_cx :
    mkElemVal 64 0 0 = mkElemVal 65 0 0 ∧
    ((64, 0, 0) : Nat × Nat × Nat) ≠ (65, 0, 0) := by
  constructor
  · rw [mkElemVal_eq, mkElemVal_eq]
    decide
  · decide

theorem mem_free_events (y i j : Nat) (b : Bool) :
    ∀ e ∈ free_incomplete_arr y i j b, ∃ p, e = Event.free p := by
  intro e he
  cases b <;>
    simp only [free_incomplete_arr, free_sub_arr_up_to, List.mem_append,
      List.mem_flatMap, List.mem_map, List.mem_cons, List.mem_singleton,
      List.not_mem_nil, or_false, false_or, if_true, if_false,
      Bool.false_eq_true, Bool.true_eq_false] at he <;>
    aesop

theorem mem_midAllocFlat (y n : Nat) :
    ∀ e ∈ (List.range n).flatMap (midAllocEvents y), ∃ p, e = Event.alloc p := by
  intro e he
  simp only [List.mem_flatMap, midAllocEvents, List.mem_cons,
    List.mem_map] at he
  aesop

theorem mem_alloc_map (i : Nat) (l : List Nat) :
    ∀ e ∈ l.map fun jj => Event.alloc (Ptr.inner i jj), ∃ p, e = Event.alloc p := by
  intro e he
  rcases List.mem_map.mp he with ⟨j, _, rfl⟩
  exact ⟨_, rfl⟩

/-- C4 (amended): on every allocation failure (outer, middle, or inner
layer) the program's effects occur in this order: the system-level error is
reported to the error stream first (`perror`), then the allocation count
accumulated so far is reported to standard output (`print_allocs`), then
the partial structure is fully cleaned up, then the process exits with the
failure code.  The spec's claimed order — stdout count before the stderr
error — is refuted by the counterexample: at every failure site the code
calls `perror` before `print_allocs`. -/
theorem c4_failure_order (x y z : Nat) (fp : Option Ptr)
    (hfail : (mk_arr x y z fp).2.2 = false) :
    ∃ pre n fr,
      main_run x y z fp =
        pre ++ Event.err "array allocation" :: Event.out (allocsLine n) ::
          fr ++ [Event.exited false] ∧
      (∀ e ∈ pre, ∃ p, e = Event.alloc p) ∧
      (∀ e ∈ fr, ∃ p, e = Event.free p) := by
  rw [main_run_fail_eq x y z fp hfail]
  rcases fp with _ | p
  · rw [mk_arr_none] at hfail
    simp at hfail
  · rcases p with _ | ii | ⟨ii, jj⟩
    · rw [mk_arr_failRoot]
      exact ⟨[], 0, [], rfl, by simp, by simp⟩
    · by_cases hx : ii < x
      · rw [mk_arr_failMid x y z ii hx]
        refine ⟨Event.alloc Ptr.root :: (List.range ii).flatMap (midAllocEvents y),
          1 + ii * (1 + y), free_incomplete_arr y ii 0 false, by simp, ?_,
          mem_free_events y ii 0 false⟩
        intro e he
        rcases List.mem_cons.mp he with rfl | he2
        · exact ⟨_, rfl⟩
        · exact mem_midAllocFlat y ii e he2
      · rw [mk_arr_success x y z _ (by simp)
          (fun i2 h2 => by
            simp only [ne_eq, Option.some.injEq, Ptr.mid.injEq]
            omega)
          (fun _ _ _ _ => by simp)] at hfail
        simp at hfail
    · by_cases hx : ii < x
      · by_cases hy2 : jj < y
        · rw [mk_arr_failInner x y z ii jj hx hy2]
          refine ⟨Event.alloc Ptr.root ::
            ((List.range ii).flatMap (midAllocEvents y) ++
              Event.alloc (Ptr.mid ii) ::
                ((List.range jj).map fun j2 => Event.alloc (Ptr.inner ii j2))),
            1 + ii * (1 + y) + 1 + jj, free_incomplete_arr y ii jj true,
            by simp, ?_, mem_free_events y ii jj true⟩
          intro e he
          rcases List.mem_cons.mp he with rfl | he2
          · exact ⟨_, rfl⟩
          rcases List.mem_append.mp he2 with he3 | he3
          · exact mem_midAllocFlat y ii e he3
          rcases List.mem_cons.mp he3 with rfl | he4
          · exact ⟨_, rfl⟩
          · exact mem_alloc_map ii _ e he4
        · rw [mk_arr_success x y z _ (by simp) (fun _ _ => by simp)
            (fun i2 j2 h2 h3 => by
              simp only [ne_eq, Option.some.injEq, Ptr.inner.injEq, not_and]
              intro h4
              omega)] at hfail
          simp at hfail
      · rw [mk_arr_success x y z _ (by simp) (fun _ _ => by simp)
          (fun i2 j2 h2 h3 => by
            simp only [ne_eq, Option.some.injEq, Ptr.inner.injEq, not_and]
            intro h4
            omega)] at hfail
        simp at hfail

/-- Witness for C4 at a root-allocation failure with extents `(1, 1, 1)`. -/
theorem c4_failure_order_witness :
    (mk_arr 1 1 1 (some Ptr.root)).2.2 = false ∧
    ∃ pre n fr,
      main_run 1 1 1 (some Ptr.root) =
        pre ++ Event.err "array allocation" :: Event.out (allocsLine n) ::
          fr ++ [Event.exited false] ∧
      (∀ e ∈ pre, ∃ p, e = Event.alloc p) ∧
      (∀ e ∈ fr, ∃ p, e = Event.free p) :=
  ⟨by decide, c4_failure_order 1 1 1 (some Ptr.root) (by decide)⟩

/-- Counterexample to C4 as stated: with extents `(2, 2, 2)` and the middle
allocation at outer index 1 failing, the stderr report (`perror`) is event
4 of the trace and the stdout allocation count is event 5 — the error
stream is written before the diagnostic count, not after it as the spec
claims. -/
theorem c4_failure_order_cx :
    (main_run 2 2 2 (some (Ptr.mid 1))).take 6 =
      [Event.alloc Ptr.root, Event.alloc (Ptr.mid 0),
       Event.alloc (Ptr.inner 0 0), Event.alloc (Ptr.inner 0 1),
       Event.err "array allocation", Event.out (allocsLine 4)] := by
  decide

/-! ## Argument parsing -/

theorem dropWhile_append_all {p : Char → Bool} :
    ∀ (w r : List Char), (∀ c ∈ w, p c = true) →
    (w ++ r).dropWhile p = r.dropWhile p := by
  intro w
  induction w with
  | nil => intro r _; rfl
  | cons a w ih =>
    intro r hw
    rw [List.cons_append, List.dropWhile_cons, hw a (List.mem_cons_self a w)]
    exact ih r fun c hc => hw c (List.mem_cons_of_mem a hc)

theorem takeWhile_append_all {p : Char → Bool} :
    ∀ (w r : List Char), (∀ c ∈ w, p c = true) →
    (w ++ r).takeWhile p = w ++ r.takeWhile p := by
  intro w
  induction w with
  | nil => intro r _; rfl
  | cons a w ih =>
    intro r hw
    rw [List.cons_append, List.takeWhile_cons, hw a (List.mem_cons_self a w)]
    rw [ih r fun c hc => hw c (List.mem_cons_of_mem a hc)]
    rfl

theorem isdigit_le (c : Char) (h : c_isdigit c = true) : '0' ≤ c := by
  unfold c_isdigit at h
  rw [Bool.and_eq_true] at h
  exact of_decide_eq_true h.1

theorem isdigit_not_space (c : Char) (h : c_isdigit c = true) :
    c_isspace c = false := by
  have h0 := isdigit_le c h
  by_contra hc
  rw [Bool.not_eq_false] at hc
  simp only [c_isspace, Bool.or_eq_true, beq_iff_eq] at hc
  rcases hc with ((((hc | hc) | hc) | hc) | hc) | hc <;>
    (subst hc; revert h0; decide)

theorem isdigit_ne_minus (c : Char) (h : c_isdigit c = true) : c ≠ '-' := by
  intro hc
  subst hc
  revert h
  decide

theorem isdigit_ne_plus (c : Char) (h : c_isdigit c = true) : c ≠ '+' := by
  intro hc
  subst hc
  revert h
  decide

/-- C6 helper: a leading `'-'` (after whitespace) takes the
"must be positive" exit. -/
theorem get_arg_negative (s : List Char) (h : argNegative s = true) :
    get_arg_size_t s = Except.error ArgErr.mustBePositive := by
  unfold get_arg_size_t
  unfold argNegative at h
  rw [if_pos h]

/-- C6 helper: a non-numeric argument (no digits, or trailing characters
after the digit run) takes the "failed to parse" exit. -/
theorem get_arg_nonnumeric (s : List Char) (hneg : argNegative s = false)
    (h : argNonNumeric s = true) :
    get_arg_size_t s = Except.error ArgErr.failedToParse := by
  unfold get_arg_size_t
  unfold argNegative at hneg
  rw [if_neg (by rw [hneg]; simp)]
  rw [if_pos ?_]
  by_cases hs : s = []
  · exact Or.inl hs
  right
  unfold argNonNumeric at h
  rw [Bool.or_eq_true] at h
  simp only [c_strtoumax]
  by_cases hsign : ((s.dropWhile c_isspace).head? == some '+' ||
      (s.dropWhile c_isspace).head? == some '-') = true
  · rw [if_pos hsign] at h ⊢
    rcases h with hcase | hcase
    · rw [beq_iff_eq] at hcase
      rw [if_pos hcase]
      exact hs
    · rw [Bool.not_eq_true', beq_eq_false_iff_ne] at hcase
      by_cases hds : (s.dropWhile c_isspace).tail.takeWhile c_isdigit = []
      · rw [if_pos hds]
        exact hs
      · rw [if_neg hds]
        split <;> exact hcase
  · rw [if_neg hsign] at h ⊢
    rcases h with hcase | hcase
    · rw [beq_iff_eq] at hcase
      rw [if_pos hcase]
      exact hs
    · rw [Bool.not_eq_true', beq_eq_false_iff_ne] at hcase
      by_cases hds : (s.dropWhile c_isspace).takeWhile c_isdigit = []
      · rw [if_pos hds]
        exact hs
      · rw [if_neg hds]
        split <;> exact hcase

/-- C6 helper: a negative-or-non-numeric argument errors with the message
`badArgMsg`. -/
theorem get_arg_bad (s : List Char) (h : argBad s = true) :
    get_arg_size_t s = Except.error
      (if argNegative s then ArgErr.mustBePositive else ArgErr.failedToParse) := by
  by_cases hneg : argNegative s = true
  · rw [if_pos hneg]
    exact get_arg_negative s hneg
  · have hneg2 : argNegative s = false := by
      revert hneg
      cases argNegative s <;> simp
    rw [if_neg (by rw [hneg2]; simp)]
    have hnn : argNonNumeric s = true := by
      unfold argBad at h
      rw [hneg2] at h
      simpa using h
    exact get_arg_nonnumeric s hneg2 hnn

/-- C6: a negative (leading `'-'` after optional whitespace) or non-numeric
argument string, at whichever of the three positions it first occurs, makes
the program print one stderr line naming that argument (`x`, `y`, or `z`)
and exit with the failure code; the trace is exactly that error line and
the failure exit, so there are zero stdout lines — in particular zero
lines of array output — and no allocation is ever performed. -/
theorem c6_bad_args (ax ay az : List Char) (fp : Option Ptr) :
    (argBad ax = true →
      main_prog ax ay az fp = [Event.err (badArgMsg ax "x"), Event.exited false]) ∧
    (∀ vx, get_arg_size_t ax = Except.ok vx → argBad ay = true →
      main_prog ax ay az fp = [Event.err (badArgMsg ay "y"), Event.exited false]) ∧
    (∀ vx vy, get_arg_size_t ax = Except.ok vx →
      get_arg_size_t ay = Except.ok vy → argBad az = true →
      main_prog ax ay az fp = [Event.err (badArgMsg az "z"), Event.exited false]) := by
  refine ⟨?_, ?_, ?_⟩
  · intro h
    unfold main_prog
    rw [get_arg_bad ax h]
    cases hn : argNegative ax <;> simp [badArgMsg, argErrMsg, hn]
  · intro vx hx h
    unfold main_prog
    rw [hx, get_arg_bad ay h]
    cases hn : argNegative ay <;> simp [badArgMsg, argErrMsg, hn]
  · intro vx vy hx hy h
    unfold main_prog
    rw [hx, hy, get_arg_bad az h]
    cases hn : argNegative az <;> simp [badArgMsg, argErrMsg, hn]

/-- Witness for C6: first argument `"-1"`. -/
theorem c6_bad_args_witness :
    argBad ("-1".toList) = true ∧
    main_prog ("-1".toList) ("2".toList) ("3".toList) none =
      [Event.err (badArgMsg ("-1".toList) "x"), Event.exited false] :=
  ⟨by decide,
    (c6_bad_args ("-1".toList) ("2".toList) ("3".toList) none).1 (by decide)⟩

/-- C10 (amended): `get_arg_size_t` accepts optional leading whitespace, an
optional `'+'` sign, and a nonempty run of base-10 digits with nothing
after it, returning the denoted value — provided that value is
representable (at most `SIZE_MAX`); digit strings denoting larger values
are rejected with the "too large" error and failure exit (see the
counterexample).  Any trailing characters after the digit run (including
trailing whitespace, as in `"5 "`) are rejected with a parse error and
failure exit. -/
theorem c10_parse_accept (w sgn ds rest : List Char)
    (hw : ∀ c ∈ w, c_isspace c = true)
    (hsgn : sgn = [] ∨ sgn = ['+'])
    (hne : ds ≠ [])
    (hd : ∀ c ∈ ds, c_isdigit c = true)
    (hrest : ∀ c, rest.head? = some c → c_isdigit c = false) :
    (rest = [] → digitsToNat ds ≤ SIZE_MAX →
      get_arg_size_t (w ++ (sgn ++ (ds ++ rest))) = Except.ok (digitsToNat ds)) ∧
    (rest ≠ [] →
      get_arg_size_t (w ++ (sgn ++ (ds ++ rest))) =
        Except.error ArgErr.failedToParse) := by
  obtain ⟨d, ds2, rfl⟩ : ∃ d ds2, ds = d :: ds2 := by
    cases ds with
    | nil => exact absurd rfl hne
    | cons d ds2 => exact ⟨d, ds2, rfl⟩
  have hd0 : c_isdigit d = true := hd d (List.mem_cons_self d ds2)
  have ht : ∀ r : List Char,
      (w ++ (sgn ++ ((d :: ds2) ++ r))).dropWhile c_isspace =
        sgn ++ ((d :: ds2) ++ r) := by
    intro r
    rw [dropWhile_append_all w _ hw]
    rcases hsgn with rfl | rfl
    · rw [List.nil_append, List.cons_append, List.dropWhile_cons,
        isdigit_not_space d hd0]
      simp
    · rw [List.cons_append, List.dropWhile_cons,
        (by decide : c_isspace '+' = false)]
      simp
  have hmain : ∀ r : List Char, (∀ c, r.head? = some c → c_isdigit c = false) →
      c_strtoumax (w ++ (sgn ++ ((d :: ds2) ++ r))) =
        (if digitsToNat (d :: ds2) > UINTMAX_MAX
          then (UINTMAX_MAX, r, true)
          else (digitsToNat (d :: ds2), r, false)) ∧
      ((w ++ (sgn ++ ((d :: ds2) ++ r))).dropWhile c_isspace).head? ≠
        some '-' := by
    intro r hr
    have htr := ht r
    have htake : ((d :: ds2) ++ r).takeWhile c_isdigit =
        (d :: ds2) ++ r.takeWhile c_isdigit := takeWhile_append_all _ _ hd
    have hrtake : r.takeWhile c_isdigit = [] := by
      cases r with
      | nil => rfl
      | cons c cs =>
        rw [List.takeWhile_cons, hr c rfl]
        rfl
    have hdrop : ((d :: ds2) ++ r).dropWhile c_isdigit = r := by
      rw [dropWhile_append_all _ _ hd]
      cases r with
      | nil => rfl
      | cons c cs =>
        rw [List.dropWhile_cons, hr c rfl]
        rfl
    constructor
    · simp only [c_strtoumax]
      rw [htr]
      rcases hsgn with rfl | rfl
      · simp only [List.nil_append]
        have hh : ((d :: ds2) ++ r).head? = some d := by
          rw [List.cons_append]
          rfl
        rw [hh]
        have hplus : (some d == some '+') = false := by
          rw [beq_eq_false_iff_ne]
          intro hc
          exact isdigit_ne_plus d hd0 (Option.some.inj hc)
        have hminus : (some d == some '-') = false := by
          rw [beq_eq_false_iff_ne]
          intro hc
          exact isdigit_ne_minus d hd0 (Option.some.inj hc)
        rw [hplus, hminus]
        simp only [Bool.or_false, Bool.false_eq_true, if_false]
        rw [htake, hrtake, List.append_nil, hdrop]
        rw [if_neg (by simp)]
      · simp only [List.cons_append, List.nil_append, List.head?_cons]
        simp only [(by decide : ((some '+' : Option Char) == some '+') = true),
          (by decide : ((some '+' : Option Char) == some '-') = false),
          Bool.true_or, Bool.false_eq_true, if_false, List.tail_cons]
        simp only [if_true]
        rw [← List.cons_append, htake, hrtake, List.append_nil, hdrop]
        simp
    · rw [htr]
      rcases hsgn with rfl | rfl
      · rw [List.nil_append, List.cons_append]
        intro hc
        exact isdigit_ne_minus d hd0 (Option.some.inj hc)
      · rw [List.cons_append]
        intro hc
        exact absurd (Option.some.inj hc) (by decide)
  constructor
  · intro hrnil hsz
    subst hrnil
    obtain ⟨hstr, hnegf⟩ := hmain [] (fun c hc => by simp at hc)
    have hbound : ¬ digitsToNat (d :: ds2) > UINTMAX_MAX := by
      simp only [UINTMAX_MAX]
      simp only [SIZE_MAX] at hsz
      omega
    have hstr2 : c_strtoumax (w ++ (sgn ++ ((d :: ds2) ++ []))) =
        (digitsToNat (d :: ds2), [], false) := by
      rw [hstr, if_neg hbound]
    have hargne : w ++ (sgn ++ ((d :: ds2) ++ [])) ≠ [] := by simp
    simp only [get_arg_size_t]
    rw [if_neg (by
      rw [Bool.not_eq_true, beq_eq_false_iff_ne]
      exact hnegf)]
    rw [hstr2]
    rw [if_neg (by
      rintro (hc | hc)
      · exact hargne hc
      · exact hc rfl)]
    rw [if_neg (by
      rintro (hc | hc)
      · exact Bool.false_ne_true hc
      · exact absurd hc (by omega))]
  · intro hrne
    obtain ⟨c, cs, rfl⟩ : ∃ c cs, rest = c :: cs := by
      cases rest with
      | nil => exact absurd rfl hrne
      | cons c cs => exact ⟨c, cs, rfl⟩
    obtain ⟨hstr, hnegf⟩ := hmain (c :: cs) hrest
    simp only [get_arg_size_t]
    rw [if_neg (by
      rw [Bool.not_eq_true, beq_eq_false_iff_ne]
      exact hnegf)]
    rw [hstr]
    rw [if_pos (Or.inr (by split <;> simp))]

/-- Witness for C10: the argument `" +42"` (whitespace, plus sign, digits)
parses to 42. -/
theorem c10_parse_accept_witness :
    (∀ c ∈ [' '], c_isspace c = true) ∧
    get_arg_size_t ([' '] ++ (['+'] ++ (['4', '2'] ++ []))) =
      Except.ok (digitsToNat ['4', '2']) :=
  ⟨by decide,
    (c10_parse_accept [' '] ['+'] ['4', '2'] [] (by decide) (Or.inr rfl)
      (by decide) (by decide) (fun c hc => by simp at hc)).1 rfl (by decide)⟩

/-- Counterexample to C10 as stated: the all-digit string
`"18446744073709551616"` (no leading whitespace, no sign, no trailing
characters — exactly the claimed accepted shape) denotes `2^64`, which
exceeds `SIZE_MAX`; `get_arg_size_t` rejects it with the "too large" error
and failure exit instead of returning the denoted value. -/
theorem c10_parse_accept_cx :
    get_arg_size_t ("18446744073709551616".toList) =
      Except.error ArgErr.tooLarge ∧
    get_arg_size_t ("18446744073709551616".toList) ≠
      Except.ok (digitsToNat ("18446744073709551616".toList)) := by
  constructor
  · decide
  · decide

/-- C9: `elem_pow` is a total function (it is defined by well-founded
recursion on the exponent, which is halved each iteration), and for every
base `x` and exponent `y` it returns `x ^ y` reduced modulo `2 ^ 64`, the
bit width of `elem`; in particular `elem_pow x 0 = 1` for every `x`,
including `x = 0`. -/
theorem c9_elem_pow_total (x y : Nat) :
    elem_pow x y = x ^ y % 2 ^ 64 ∧ elem_pow x 0 = 1 := by
  constructor
  · rw [elem_pow_eq]; rfl
  · rw [elem_pow_eq]
    simp [elemMod, elemBits]
